import Mathlib

/-!
Verification of the gensi extraction/fetch core against its specification.

Each Python source function is shallowly embedded as an executable Lean
definition; external libraries (diskcache, urllib, lxml, the regex engine,
Python str methods) are modelled at their interface boundary, as noted in
the doc comment of each such definition.
-/

namespace Gensi

/-- Python truthiness test for an optional string: `None` and the empty
string are falsy.  Mirrors `if not result[...]` checks in the source. -/
def pyFalsy : Option String → Bool
  | none => true
  | some s => s = ""

/-- Python whitespace characters recognised by `str.strip()`. -/
def isPyWS (c : Char) : Bool :=
  c = ' ' || c = '\t' || c = '\n' || c = '\r' || c = Char.ofNat 11 || c = Char.ofNat 12

/-- Model of Python `str.strip()`: drop whitespace from both ends. -/
def pyStrip (s : String) : String :=
  ⟨(((s.data.dropWhile isPyWS).reverse.dropWhile isPyWS).reverse)⟩

/-- Model of Python `str.replace(pat, rep)` on character lists: replace all
non-overlapping occurrences left to right; an empty pattern inserts the
replacement at every position (Python semantics).  `fuel` is the length of
the scanned list, consumed one unit per examined character. -/
def pyReplaceAux (pat rep : List Char) : Nat → List Char → List Char
  | _, [] => if pat = [] then rep else []
  | 0, s => s
  | fuel + 1, c :: rest =>
    if pat ≠ [] && pat.isPrefixOf (c :: rest) then
      rep ++ pyReplaceAux pat rep fuel ((c :: rest).drop pat.length)
    else if pat = [] then
      rep ++ c :: pyReplaceAux pat rep fuel rest
    else
      c :: pyReplaceAux pat rep fuel rest

/-- Model of Python `str.replace`. -/
def pyReplace (s pat rep : String) : String :=
  ⟨pyReplaceAux pat.data rep.data s.data.length s.data⟩

/-- Substring test on character lists: the needle occurs as a prefix of
some suffix of the haystack. -/
def containsSubAux (needle : List Char) : List Char → Bool
  | [] => needle.isPrefixOf []
  | c :: rest => needle.isPrefixOf (c :: rest) || containsSubAux needle rest

/-- Substring test (model of Python `in` on strings). -/
def containsSub (haystack needle : String) : Bool :=
  containsSubAux needle.data haystack.data

/-! ## Cache store — src/gensi/core/cache.py -/

/-- `ContentType = Literal["text", "binary"]` (cache.py line 17). -/
inductive ContentType where
  | text
  | binary
deriving DecidableEq, Repr

/-- String form of a content type, as interpolated into the cache key. -/
def ContentType.toStr : ContentType → String
  | .text => "text"
  | .binary => "binary"

/-- A cache entry as built by `HttpCache.set` (cache.py lines 104-109).
The payload bytes are modelled as a `String`; `cached_at` is a wall-clock
timestamp and is outside the model (expiry is enforced by diskcache, not
by this layer). -/
structure CacheEntry where
  content : String
  final_url : String
  original_url : String
deriving DecidableEq, Repr

/-- `HttpCache._make_cache_key` (cache.py lines 50-63):
`f"{url_hash}_{content_type}"` where `url_hash` is the SHA-256 hex digest
of the URL.  The digest is modelled as an arbitrary function
`h : String → String`; no claim below depends on more than the key being a
deterministic function of the URL with the content type appended after an
underscore. -/
def make_cache_key (h : String → String) (url : String) (ct : ContentType) : String :=
  h url ++ "_" ++ ct.toStr

/-- The diskcache store modelled as an association list from cache keys to
entries; the most recent `set` for a key shadows older ones. -/
structure HttpCache where
  entries : List (String × CacheEntry)
deriving Repr

/-- A cache with no entries. -/
def HttpCache.empty : HttpCache := ⟨[]⟩

/-- `HttpCache.get` (cache.py lines 65-87): look the key up; a missing key
is a miss (`none`), never an error (the source additionally converts store
exceptions into `None`). -/
def HttpCache.get (h : String → String) (c : HttpCache) (url : String)
    (ct : ContentType) : Option CacheEntry :=
  c.entries.lookup (make_cache_key h url ct)

/-- `HttpCache.set` (cache.py lines 89-117): store
`{content, final_url, original_url}` under the key for `(url, ct)`. -/
def HttpCache.set (h : String → String) (c : HttpCache) (url content final_url : String)
    (ct : ContentType) : HttpCache :=
  ⟨(make_cache_key h url ct, ⟨content, final_url, url⟩) :: c.entries⟩

/-! ## Cached fetcher — src/gensi/core/cached_fetcher.py -/

/-- `FetchContext = Literal["cover", "index", "article", "image"]`
(cached_fetcher.py line 13). -/
inductive FetchContext where
  | cover
  | index
  | article
  | image
deriving DecidableEq, Repr

/-- `CachedFetcher._should_cache` (cached_fetcher.py lines 61-80): never
cache when caching is disabled (in the source `self.cache is None` exactly
when `cache_enabled` is false), never cache `index`, cache everything
else. -/
def should_cache (cache_enabled : Bool) (ctx : FetchContext) : Bool :=
  if !cache_enabled then false
  else if ctx = .index then false
  else true

/-- Outcome of one `fetch`/`fetch_binary` call: the returned value (or the
re-raised fetch error), the cache state afterwards, and the list of network
requests issued (observational model of hitting the network). -/
structure FetchOutcome where
  result : Except String (String × String)
  cache : HttpCache
  netCalls : List String
deriving Repr

/-- `CachedFetcher.fetch` (cached_fetcher.py lines 82-126).  The network is
the oracle `net`; the utf-8 encode/decode round trip between the cache (bytes)
and the caller (text) is the identity in this model.  On cache hit the entry
is returned without a network call; on miss the network result is written
through when caching applies; fetch errors are re-raised and nothing is
cached. -/
def CachedFetcher.fetch (h : String → String) (cache_enabled : Bool)
    (net : String → Except String (String × String)) (cache : HttpCache)
    (url : String) (ctx : FetchContext) : FetchOutcome :=
  if should_cache cache_enabled ctx then
    match cache.get h url .text with
    | some e => ⟨.ok (e.content, e.final_url), cache, []⟩
    | none =>
      match net url with
      | .ok (content, final_url) =>
        ⟨.ok (content, final_url), cache.set h url content final_url .text, [url]⟩
      | .error e => ⟨.error e, cache, [url]⟩
  else
    match net url with
    | .ok (content, final_url) => ⟨.ok (content, final_url), cache, [url]⟩
    | .error e => ⟨.error e, cache, [url]⟩

/-- `CachedFetcher.fetch_binary` (cached_fetcher.py lines 128-169): same
policy as `fetch` with the `binary` cache kind (binary payloads are also
modelled as strings of bytes). -/
def CachedFetcher.fetch_binary (h : String → String) (cache_enabled : Bool)
    (net : String → Except String (String × String)) (cache : HttpCache)
    (url : String) (ctx : FetchContext) : FetchOutcome :=
  if should_cache cache_enabled ctx then
    match cache.get h url .binary with
    | some e => ⟨.ok (e.content, e.final_url), cache, []⟩
    | none =>
      match net url with
      | .ok (content, final_url) =>
        ⟨.ok (content, final_url), cache.set h url content final_url .binary, [url]⟩
      | .error e => ⟨.error e, cache, [url]⟩
  else
    match net url with
    | .ok (content, final_url) => ⟨.ok (content, final_url), cache, [url]⟩
    | .error e => ⟨.error e, cache, [url]⟩

/-! ## URL resolution — src/gensi/utils/url_utils.py

`resolve_url` delegates to `urllib.parse.urljoin`.  The stdlib function is
modelled at its interface for the cases the claims need: a reference that
already has a scheme is returned as is, protocol-relative (`//`) and
root-relative (`/`) references adopt the base scheme and origin, other
references merge with the directory of the base path.  (The stdlib's
same-scheme relative-reference and dot-segment refinements are outside the
model.) -/

/-- Characters allowed in a URL scheme after the initial letter. -/
def schemeChar (c : Char) : Bool :=
  c.isAlpha || c.isDigit || c = '+' || c = '-' || c = '.'

/-- Scan for `scheme:`: the characters before the first `:` must all be
scheme characters. -/
def splitSchemeAux : List Char → Option (List Char × List Char)
  | [] => none
  | c :: rest =>
    if c = ':' then some ([], rest)
    else if schemeChar c then (splitSchemeAux rest).map (fun p => (c :: p.1, p.2))
    else none

/-- `splitScheme` on the character list: the first character must be a
letter. -/
def splitSchemeList : List Char → Option (List Char × List Char)
  | [] => none
  | c :: rest => if c.isAlpha then splitSchemeAux (c :: rest) else none

/-- Split `scheme:rest`; the scheme must start with a letter (model of
`urllib.parse.urlparse` scheme recognition). -/
def splitScheme (s : String) : Option (String × String) :=
  (splitSchemeList s.data).map (fun p => ((⟨p.1⟩ : String), (⟨p.2⟩ : String)))

/-- A URL is absolute when it carries a scheme. -/
def hasScheme (s : String) : Bool :=
  (splitScheme s).isSome

/-- Split `//netloc/path` into the network location and the path. -/
def splitNetloc : List Char → Option (List Char) × List Char
  | '/' :: '/' :: r =>
    (some (r.takeWhile (fun c => c ≠ '/')), r.dropWhile (fun c => c ≠ '/'))
  | r => (none, r)

/-- The directory part of a path: everything up to and including the last
slash, or a single slash for a path with none. -/
def dirOf (path : List Char) : List Char :=
  let r := (path.reverse.dropWhile (fun c => c ≠ '/')).reverse
  if r = [] then ['/'] else r

/-- The `//netloc` part of a split base, re-serialized. -/
def urljoinNetlocStr (rest : String) : String :=
  match (splitNetloc rest.data).1 with
  | some netloc => "//" ++ (⟨netloc⟩ : String)
  | none => ""

/-- Join a relative reference onto a base already split as `sch:rest`:
protocol-relative references adopt the scheme, root-relative references
adopt scheme and network location, and other references merge with the
directory of the base path. -/
def urljoinWithScheme (sch rest url : String) : String :=
  if url.data.take 2 = ['/', '/'] then sch ++ ":" ++ url
  else if url.data.take 1 = ['/'] then sch ++ ":" ++ (urljoinNetlocStr rest ++ url)
  else
    sch ++ ":"
      ++ (urljoinNetlocStr rest ++ (⟨dirOf (splitNetloc rest.data).2⟩ : String) ++ url)

/-- Interface model of `urllib.parse.urljoin`. -/
def urljoin (base url : String) : String :=
  if url = "" then base
  else if base = "" then url
  else if hasScheme url then url
  else
    match splitScheme base with
    | none => url
    | some (sch, rest) => urljoinWithScheme sch rest url

/-- `resolve_url` (url_utils.py lines 7-18): `urljoin(base_url, url)`. -/
def resolve_url (base_url url : String) : String :=
  urljoin base_url url

/-- The host of a URL: the network location after `scheme://`. -/
def hostOf (url : String) : String :=
  match splitScheme url with
  | some p =>
    match splitNetloc p.2.data with
    | (some netloc, _) => ⟨netloc⟩
    | (none, _) => ""
  | none => ""

/-! ## Social feed resolver — parse_bluesky_feed

Modelled from the spec: `parse_bluesky_feed` is imported by the
orchestrator (processor.py line 12, `from .extractor import ...
parse_bluesky_feed`) and exercised by tests/test_extractor.py, but its
definition is not under src/.  Spec §4.2: without a script, filter returned
entries to those carrying a link-card attachment, optionally filtered again
to a configured domain (exact host or any subdomain of it) and capped;
surface the upstream API's explicit error field, if present, as a raised
error rather than as an empty result; de-duplicate by URL, preserving
first-seen order, before any cap is applied. -/

/-- One feed entry: `cardUri` is the link-card attachment URL when the
entry carries one. -/
structure BskyPost where
  cardUri : Option String

/-- The parsed upstream API response: an optional explicit error field
(with optional message) and the list of entries. -/
structure BskyFeed where
  apiError : Option String
  apiMessage : Option String
  feed : List BskyPost

/-- Domain filter from the spec: exact host or any subdomain
(host ends with `.` + domain). -/
def domainMatches (d : String) (url : String) : Bool :=
  hostOf url = d || ("." ++ d).data.isSuffixOf (hostOf url).data

/-- De-duplication preserving first-seen order, carrying the set of URLs
already seen. -/
def dedupFirstSeenAux (seen : List String) : List String → List String
  | [] => []
  | x :: xs =>
    if seen.contains x then dedupFirstSeenAux seen xs
    else x :: dedupFirstSeenAux (x :: seen) xs

/-- De-duplication by URL, preserving first-seen order. -/
def dedupFirstSeen (l : List String) : List String :=
  dedupFirstSeenAux [] l

/-- Modelled from the spec: `parse_bluesky_feed` without a script.  An
explicit upstream error field raises; otherwise entries without a link-card
attachment are dropped, the optional domain filter keeps exact-host and
subdomain matches, duplicates collapse to the first occurrence, and the
result is capped at the configured limit. -/
def parse_bluesky_feed (feed : BskyFeed) (domain : Option String) (limit : Nat) :
    Except String (List String) :=
  match feed.apiError with
  | some e => .error ("Bluesky API error: " ++ feed.apiMessage.getD e)
  | none =>
    let urls := feed.feed.filterMap (fun p => p.cardUri)
    let filtered := match domain with
      | some d => urls.filter (domainMatches d)
      | none => urls
    .ok ((dedupFirstSeen filtered).take limit)

/-! ## URL transform — src/gensi/core/extractor.py lines 152-195

`Extractor.transform_url` in simple mode runs `re.search(pattern, url)` and,
on a match, replaces each placeholder `{i}` in the template with the i-th
capture group.  The Python `re` engine is modelled for the pattern subset
these recipes use: sequences of literal characters and captured
one-or-more character classes, with Python's leftmost search and greedy
backtracking semantics. -/

/-- One item of the embedded regex subset: a literal character, or a
captured group matching one or more characters of a character class
(a list of inclusive ranges, e.g. `\d` is `[('0','9')]`). -/
inductive PatItem where
  | lit (c : Char)
  | grp (cls : List (Char × Char))

/-- Character-class membership. -/
def inCls (cls : List (Char × Char)) (c : Char) : Bool :=
  cls.any (fun p => p.1 ≤ c && c ≤ p.2)

/-- Greedy backtracking for a captured group: try capture lengths from `k`
down to 1, continuing with `next` on the remainder; the first success
wins. -/
def tryCapture (next : List Char → Option (List String × List Char))
    (s : List Char) : Nat → Option (List String × List Char)
  | 0 => none
  | k + 1 =>
    match next (s.drop (k + 1)) with
    | some (gs, rem) => some ((⟨s.take (k + 1)⟩ : String) :: gs, rem)
    | none => tryCapture next s k

/-- Match a pattern at the start of a character list, returning the capture
groups in order and the unconsumed remainder. -/
def matchSeq : List PatItem → List Char → Option (List String × List Char)
  | [], s => some ([], s)
  | .lit _ :: _, [] => none
  | .lit c :: rest, x :: s => if x = c then matchSeq rest s else none
  | .grp cls :: rest, s => tryCapture (matchSeq rest) s ((s.takeWhile (inCls cls)).length)

/-- Model of `re.search`: try to match at each start position from the
left; the leftmost match wins. -/
def searchAux (p : List PatItem) : List Char → Option (List String)
  | [] =>
    match matchSeq p [] with
    | some (gs, _) => some gs
    | none => none
  | c :: s =>
    match matchSeq p (c :: s) with
    | some (gs, _) => some gs
    | none => searchAux p s

/-- `re.search(pattern, url)` returning the capture groups of the match. -/
def re_search (p : List PatItem) (s : String) : Option (List String) :=
  searchAux p s.data

/-- The placeholder loop of `transform_url` (extractor.py lines 191-193):
`for i, group in enumerate(match.groups(), start=1): transformed =
transformed.replace(f"\x7b{i}\x7d", group)`. -/
def substGroupsAux (template : String) (i : Nat) : List String → String
  | [] => template
  | g :: gs => substGroupsAux (pyReplace template ("\x7b" ++ toString i ++ "\x7d") g) (i + 1) gs

/-- `Extractor.transform_url` (extractor.py lines 152-195) in simple
pattern/template mode: no match returns the URL unchanged, a match
substitutes the capture groups into the template. -/
def transform_url (pattern : List PatItem) (template : String) (url : String) : String :=
  match re_search pattern url with
  | none => url
  | some groups => substGroupsAux template 1 groups

/-! ## Replacements — src/gensi/core/replacements.py -/

/-- One replacement rule (replacements.py lines 36-39). -/
structure Replacement where
  pattern : String
  replacement : String
  regex : Bool

/-- One iteration of the loop in `apply_replacements` (replacements.py
lines 41-52).  `rsub` models `re.sub pattern replacement result`; it
returns `none` when the pattern fails to compile (`re.error`), in which
case the source skips the rule and keeps `result` unchanged.  A literal
rule uses Python `str.replace`. -/
def applyOneReplacement (rsub : String → String → String → Option String)
    (result : String) (r : Replacement) : String :=
  if r.regex then
    match rsub r.pattern r.replacement result with
    | some s => s
    | none => result
  else
    pyReplace result r.pattern r.replacement

/-- `apply_replacements` (replacements.py lines 7-54): early return on an
empty rule list, otherwise fold the rules over the content in list order. -/
def apply_replacements (rsub : String → String → String → Option String)
    (content : String) (replacements : List Replacement) : String :=
  if replacements.isEmpty then content
  else replacements.foldl (applyOneReplacement rsub) content

/-! ## DOM model — lxml element trees as used by src/gensi/core/extractor.py

lxml documents are modelled as a mutual inductive of nodes and forests: an
element has a tag, attributes, the text before its first child, children,
and the tail text following it (lxml `.text` / `.tail`).  `cssselect` with
the selector shapes these recipes use (`tag`, `.class`, `tag.class`)
translates to `descendant-or-self::` XPath: matching is by the node's own
tag and class words, searched in document order (pre-order), including the
element itself.  Removing an element (`elem.getparent().remove(elem)`)
drops the element together with its subtree and tail. -/

mutual
inductive HNode where
  | elem (tag : String) (attrs : List (String × String)) (text : String)
      (children : HForest) (tail : String)
inductive HForest where
  | nil
  | cons (head : HNode) (tail : HForest)
end

/-- The tag of an element. -/
def HNode.tagOf : HNode → String
  | .elem t _ _ _ _ => t

/-- The attribute list of an element. -/
def HNode.attrsOf : HNode → List (String × String)
  | .elem _ a _ _ _ => a

/-- The direct text of an element (lxml `.text`, before the first child). -/
def HNode.textOf : HNode → String
  | .elem _ _ tx _ _ => tx

/-- The tail text of an element (lxml `.tail`). -/
def HNode.tailOf : HNode → String
  | .elem _ _ _ _ tl => tl

/-- `elem.get(key)`: the first attribute with the given name. -/
def getAttr (n : HNode) (k : String) : Option String :=
  n.attrsOf.lookup k

/-- Split a character list on whitespace runs (accumulator holds the
current word reversed). -/
def splitWSAux : List Char → List Char → List (List Char)
  | [], acc => if acc = [] then [] else [acc.reverse]
  | c :: rest, acc =>
    if isPyWS c then
      if acc = [] then splitWSAux rest [] else acc.reverse :: splitWSAux rest []
    else splitWSAux rest (c :: acc)

/-- The whitespace-separated words of an element's `class` attribute. -/
def classWords (n : HNode) : List String :=
  (splitWSAux ((getAttr n "class").getD "").data []).map (fun l => (⟨l⟩ : String))

/-- A CSS selector of the shapes used by the recipes: optional tag name and
optional single class. -/
structure Sel where
  tag : Option String
  cls : Option String

/-- CSS matching of a single element: tag equality and class-word
membership (cssselect compiles `.c` to a word-containment test on the
`class` attribute). -/
def nodeMatches (s : Sel) (n : HNode) : Bool :=
  (match s.tag with
   | none => true
   | some t => n.tagOf == t)
  && (match s.cls with
   | none => true
   | some c => (classWords n).contains c)

mutual
/-- All descendant-or-self nodes satisfying `p`, in document (pre-)order:
the model of `cssselect` result lists. -/
def findAll (p : HNode → Bool) : HNode → List HNode
  | .elem t a tx ch tl =>
    (if p (.elem t a tx ch tl) then [HNode.elem t a tx ch tl] else []) ++ findAllF p ch
/-- `findAll` over a forest. -/
def findAllF (p : HNode → Bool) : HForest → List HNode
  | .nil => []
  | .cons h rest => findAll p h ++ findAllF p rest
end

mutual
/-- `elem.text_content()`: the concatenation of all text in the subtree
(direct text, then each child's text content followed by its tail). -/
def textContent : HNode → String
  | .elem _ _ tx ch _ => tx ++ textContentF ch
/-- `textContent` over a forest. -/
def textContentF : HForest → String
  | .nil => ""
  | .cons h rest => textContent h ++ h.tailOf ++ textContentF rest
end

/-- Serialized attribute list (`key="value"` pairs). -/
def serializeAttrs : List (String × String) → String
  | [] => ""
  | (k, v) :: rest => " " ++ k ++ "=\"" ++ v ++ "\"" ++ serializeAttrs rest

mutual
/-- Model of `etree.tostring(elem, encoding="unicode", method="html")`:
open tag with attributes, direct text, children, close tag, tail. -/
def serialize : HNode → String
  | .elem t a tx ch tl =>
    "<" ++ t ++ serializeAttrs a ++ ">" ++ tx ++ serializeF ch ++ "</" ++ t ++ ">" ++ tl
/-- `serialize` over a forest. -/
def serializeF : HForest → String
  | .nil => ""
  | .cons h rest => serialize h ++ serializeF rest
end

mutual
/-- Remove every strict descendant matching `p`, top-down (a removed
subtree is dropped whole, as `getparent().remove` does); the node itself
is kept. -/
def pruneDesc (p : HNode → Bool) : HNode → HNode
  | .elem t a tx ch tl => .elem t a tx (pruneF p ch) tl
/-- `pruneDesc` over a forest: matching roots are dropped entirely. -/
def pruneF (p : HNode → Bool) : HForest → HForest
  | .nil => .nil
  | .cons h rest =>
    if p h then pruneF p rest else .cons (pruneDesc p h) (pruneF p rest)
end

mutual
/-- Replace the first descendant-or-self node matching `q` (document
order) by `f` of it; the flag reports whether a replacement happened. -/
def replaceFirst (q : HNode → Bool) (f : HNode → HNode) : HNode → HNode × Bool
  | .elem t a tx ch tl =>
    if q (.elem t a tx ch tl) then (f (.elem t a tx ch tl), true)
    else
      let r := replaceFirstF q f ch
      (.elem t a tx r.1 tl, r.2)
/-- `replaceFirst` over a forest. -/
def replaceFirstF (q : HNode → Bool) (f : HNode → HNode) : HForest → HForest × Bool
  | .nil => (.nil, false)
  | .cons h rest =>
    let r := replaceFirst q f h
    if r.2 then (.cons r.1 rest, true)
    else
      let r2 := replaceFirstF q f rest
      (.cons h r2.1, r2.2)
end

mutual
/-- Delete the first strict descendant matching `q` (document order); the
root itself is never deleted. -/
def deleteFirstN (q : HNode → Bool) : HNode → HNode × Bool
  | .elem t a tx ch tl =>
    let r := deleteFirstF q ch
    (.elem t a tx r.1 tl, r.2)
/-- `deleteFirstN` over a forest: a matching head is dropped whole. -/
def deleteFirstF (q : HNode → Bool) : HForest → HForest × Bool
  | .nil => (.nil, false)
  | .cons h rest =>
    if q h then (rest, true)
    else
      let r := deleteFirstN q h
      if r.2 then (.cons r.1 rest, true)
      else
        let r2 := deleteFirstF q rest
        (.cons h r2.1, r2.2)
end

/-- Rewrite one attribute as `resolve_urls_in_html` does: non-empty `href`
and `src` values are resolved against the base URL. -/
def rewriteUrlAttr (base : String) (kv : String × String) : String × String :=
  if (kv.1 == "href" || kv.1 == "src") && kv.2 != "" then (kv.1, resolve_url base kv.2)
  else kv

mutual
/-- `resolve_urls_in_html` (url_utils.py lines 51-85) modelled at tree
level: every non-empty `href`/`src` attribute in the subtree is resolved
against the base URL.  (The source serializes, re-parses, rewrites and
re-serializes; for well-formed content this is the same rewrite.) -/
def resolveUrlsNode (base : String) : HNode → HNode
  | .elem t a tx ch tl =>
    .elem t (a.map (rewriteUrlAttr base)) tx (resolveUrlsF base ch) tl
/-- `resolveUrlsNode` over a forest. -/
def resolveUrlsF (base : String) : HForest → HForest
  | .nil => .nil
  | .cons h rest => .cons (resolveUrlsNode base h) (resolveUrlsF base rest)
end

/-- Build a forest from a list of nodes. -/
def HForest.ofList : List HNode → HForest
  | [] => .nil
  | n :: ns => .cons n (HForest.ofList ns)

/-! ## Metadata fallback — src/gensi/utils/metadata_fallback.py -/

/-- XPath atom `//meta[@K="V"]/@content`: the `content` attribute of the
first `meta` element carrying attribute `K` with value `V` and a `content`
attribute, in document order. -/
def metaContentBy (attrKey attrVal : String) (doc : HNode) : Option String :=
  ((findAll (fun n => n.tagOf == "meta" && getAttr n attrKey == some attrVal) doc).filterMap
    (fun n => getAttr n "content")).head?

/-- XPath atom `//tag/text()`: the first non-empty direct text of a `tag`
element, in document order. -/
def firstDirectText (tag : String) (doc : HNode) : Option String :=
  ((findAll (fun n => n.tagOf == tag) doc).filterMap
    (fun n => if n.textOf = "" then none else some n.textOf)).head?

/-- XPath atom `//tag/@attr`: the first `attr` attribute of a `tag`
element, in document order. -/
def firstAttrOfTag (tag attr : String) (doc : HNode) : Option String :=
  ((findAll (fun n => n.tagOf == tag) doc).filterMap (fun n => getAttr n attr)).head?

/-- XPath atom `//tag[@attr="val"]/text()`: first non-empty direct text of
a `tag` element whose attribute `attr` equals `val` exactly (XPath
attribute equality, unlike CSS class-word matching). -/
def firstTextByAttr (tag attr val : String) (doc : HNode) : Option String :=
  ((findAll (fun n => n.tagOf == tag && getAttr n attr == some val) doc).filterMap
    (fun n => if n.textOf = "" then none else some n.textOf)).head?

/-- One step of a fallback chain (`if result and result[0].strip():`): the
candidate is used only when its stripped value is non-empty, and the
stripped value is stored. -/
def tryChain : Option String → Option String
  | none => none
  | some s => if pyStrip s = "" then none else some (pyStrip s)

/-- First candidate of a fallback chain whose stripped value is
non-empty. -/
def chainFirst : List (Option String) → Option String
  | [] => none
  | v :: rest =>
    match tryChain v with
    | some s => some s
    | none => chainFirst rest

/-- Title/author/date produced by the fallback chains. -/
structure FallbackMeta where
  title : Option String
  author : Option String
  date : Option String

/-- `extract_metadata_fallback` (metadata_fallback.py lines 7-79): each of
title, author and date is resolved independently by its fixed chain of
well-known locations; the first non-empty (after strip) match wins, and a
field is `none` when its chain is exhausted. -/
def extract_metadata_fallback (doc : HNode) : FallbackMeta where
  title := chainFirst
    [ metaContentBy "property" "og:title" doc
    , metaContentBy "name" "twitter:title" doc
    , firstDirectText "title" doc
    , firstDirectText "h1" doc ]
  author := chainFirst
    [ metaContentBy "name" "author" doc
    , metaContentBy "property" "article:author" doc
    , metaContentBy "property" "og:article:author" doc
    , firstTextByAttr "span" "class" "author" doc
    , firstTextByAttr "div" "class" "author" doc
    , firstTextByAttr "a" "rel" "author" doc ]
  date := chainFirst
    [ metaContentBy "property" "article:published_time" doc
    , metaContentBy "property" "og:article:published_time" doc
    , firstAttrOfTag "time" "datetime" doc
    , metaContentBy "name" "date" doc
    , metaContentBy "name" "pubdate" doc
    , firstDirectText "time" doc ]

/-! ## Article extraction — src/gensi/core/extractor.py lines 197-374 -/

/-- The result record of `extract_article_content` (extractor.py lines
210-215). -/
structure ExtractionResult where
  content : Option String
  title : Option String
  author : Option String
  date : Option String
deriving DecidableEq, Repr

/-- The simple-mode article configuration fragment (selectors for content,
title, author, date, and the ordered remove list). -/
structure ArticleCfg where
  content : Option Sel
  title : Option Sel
  author : Option Sel
  date : Option Sel
  remove : List Sel

/-- The removal loop of `extract_article_content` (extractor.py lines
326-329): for each remove selector in order, every `cssselect` match under
the already-selected content element (descendant-or-self) is removed from
the live tree via `elem.getparent().remove(elem)`.  State: the current
document, whether the content element has been detached from it, and the
current content element.  When the content element itself matches a remove
selector while it has no parent — either because it is the document root,
or because an earlier remove selector already detached it — `getparent()`
is `None` and the source raises (an `AttributeError` wrapped into the hard
extraction error); when it matches while still attached and not the root,
it is detached from the document while remaining the serialization
target. -/
def applyRemovals (csel : Sel) : List Sel → HNode → Bool → HNode →
    Except String (HNode × Bool × HNode)
  | [], doc, detached, ce => .ok (doc, detached, ce)
  | sel :: rest, doc, detached, ce =>
    let ce2 := pruneDesc (nodeMatches sel) ce
    if nodeMatches sel ce then
      if detached then
        .error "Failed to extract article content: NoneType object has no attribute remove"
      else if nodeMatches csel doc then
        .error "Failed to extract article content: NoneType object has no attribute remove"
      else applyRemovals csel rest (deleteFirstN (nodeMatches csel) doc).1 true ce2
    else
      if detached then applyRemovals csel rest doc detached ce2
      else
        applyRemovals csel rest
          (replaceFirst (nodeMatches csel) (pruneDesc (nodeMatches sel)) doc).1 false ce2

/-- Metadata extraction with a configured selector (extractor.py lines
344-352): first match, `text_content().strip()`; no selector or no match
leaves the field `none`. -/
def metaSelExtract (doc : HNode) : Option Sel → Option String
  | none => none
  | some sel =>
    match findAll (nodeMatches sel) doc with
    | [] => none
    | e :: _ => some (pyStrip (textContent e))

/-- Date extraction (extractor.py lines 354-359): text content preferred,
else the `datetime` attribute. -/
def dateSelExtract (doc : HNode) : Option Sel → Option String
  | none => none
  | some sel =>
    match findAll (nodeMatches sel) doc with
    | [] => none
    | e :: _ =>
      let tx := pyStrip (textContent e)
      if tx = "" then getAttr e "datetime" else some tx

/-- `Extractor.extract_article_content`, simple-selector mode (extractor.py
lines 312-374): a missing `content` selector or one matching no element is
a hard error; otherwise remove selectors are applied to the selected
content element in the live tree, the content is serialized with URLs
resolved, the metadata selectors are evaluated against the (already
mutated) document, and the fallback chain fills each still-falsy field
(error message texts abridged). -/
def extract_article_content_simple (base : String) (doc : HNode) (cfg : ArticleCfg) :
    Except String ExtractionResult :=
  match cfg.content with
  | none => .error "Article: content selector is required in simple mode"
  | some csel =>
    match findAll (nodeMatches csel) doc with
    | [] => .error "Failed to extract article content: content selector did not match any elements"
    | ce :: _ =>
      match applyRemovals csel cfg.remove doc false ce with
      | .error e => .error e
      | .ok (doc2, _, ce2) =>
        let contentStr := serialize (resolveUrlsNode base ce2)
        let title0 := metaSelExtract doc2 cfg.title
        let author0 := metaSelExtract doc2 cfg.author
        let date0 := dateSelExtract doc2 cfg.date
        if pyFalsy title0 || pyFalsy author0 || pyFalsy date0 then
          let fb := extract_metadata_fallback doc2
          .ok ⟨some contentStr,
            if pyFalsy title0 then fb.title else title0,
            if pyFalsy author0 then fb.author else author0,
            if pyFalsy date0 then fb.date else date0⟩
        else
          .ok ⟨some contentStr, title0, author0, date0⟩

/-- The value returned by an article script: a string, a dict (the
`content` key distinguished between absent, `none`, and a string value;
title/author/date via `.get`), or anything else. -/
inductive PyArticleResult where
  | str (s : String)
  | dict (contentKey : Option (Option String)) (title author date : Option String)
  | other

/-- `Extractor.extract_article_content`, script mode (extractor.py lines
278-310): a string return is the content with the full metadata fallback;
a dict return must contain a `content` key (hard error otherwise) and the
fallback fills only the falsy metadata fields; any other shape is a hard
error. -/
def extract_article_content_python (doc : HNode) (res : PyArticleResult) :
    Except String ExtractionResult :=
  match res with
  | .str s =>
    let fb := extract_metadata_fallback doc
    .ok ⟨some s, fb.title, fb.author, fb.date⟩
  | .dict contentKey t a d =>
    match contentKey with
    | none => .error "Article Python script dict must have content key"
    | some cv =>
      if pyFalsy t || pyFalsy a || pyFalsy d then
        let fb := extract_metadata_fallback doc
        .ok ⟨cv,
          if pyFalsy t then fb.title else t,
          if pyFalsy a then fb.author else a,
          if pyFalsy d then fb.date else d⟩
      else .ok ⟨cv, t, a, d⟩
  | .other => .error "Article Python script must return string or dict"

/-! ## Index extraction — src/gensi/core/extractor.py lines 102-150 -/

/-- An article reference produced by index extraction. -/
structure IndexArticle where
  url : String
  content : Option String
deriving DecidableEq, Repr

/-- `Extractor.extract_index_articles`, simple mode (extractor.py lines
133-150): every element matching the links selector contributes a
reference with its `href` resolved against the base URL; a missing or
empty `href` (`link_elem.get("href", "")` falsy) is skipped. -/
def extract_index_articles_simple (base : String) (linksSel : Sel) (doc : HNode) :
    List IndexArticle :=
  (findAll (nodeMatches linksSel) doc).filterMap (fun n =>
    let href := (getAttr n "href").getD ""
    if href = "" then none else some ⟨resolve_url base href, none⟩)

/-- An item of the list returned by an index script: a dict with optional
`url` and `content` keys, or a non-dict value. -/
inductive PyIndexItem where
  | dict (url : Option String) (content : Option String)
  | nondict

/-- `Extractor.extract_index_articles`, script mode (extractor.py lines
115-131): each item must be a dict with a `url` key (hard error
otherwise); the URL is resolved against the base URL and an optional
`content` is carried along. -/
def extract_index_articles_python (base : String) :
    List PyIndexItem → Except String (List IndexArticle)
  | [] => .ok []
  | item :: rest =>
    match item with
    | .nondict => .error "Index Python script must return list of dicts with url key"
    | .dict none _ => .error "Index Python script must return list of dicts with url key"
    | .dict (some u) c =>
      match extract_index_articles_python base rest with
      | .ok out => .ok (⟨resolve_url base u, c⟩ :: out)
      | .error e => .error e

/-! ## Orchestrator article phase — src/gensi/core/processor.py lines 116-142 and 337-449

`GensiProcessor._process_article` and the `asyncio.gather` fan-out of
`process`.  Collaborators (network, sanitizer, typography, replacements,
image pipeline, the configured extractor) are injected as functions; an
exception anywhere is modelled by `Except.error` and propagates exactly
where the source has no `try`/`except` — in particular around the article
fetch (line 389) and the content extraction (line 405). -/

/-- An article reference entering `_process_article` (`article_data`). -/
structure ArticleData where
  url : String
  content : Option String
  title : Option String
  author : Option String
  date : Option String

/-- The processed article record (the `url` key is absent on the
config-extraction path, which returns the extractor's dict). -/
structure ArticleRecord where
  url : Option String
  content : Option String
  title : Option String
  author : Option String
  date : Option String
deriving DecidableEq, Repr

/-- The collaborators of `_process_article`. -/
structure ProcDeps where
  net : String → Except String (String × String)
  sanitize : String → String
  improveTypography : String → String
  applyRepl : String → String
  processImages : String → String
  extractArticle : String → String → Except String ExtractionResult

/-- The fetch-and-extract path of `_process_article` (processor.py lines
387-449): fetch the article (an error here propagates — there is no
handler), then extract with the configured article recipe when one exists
(extraction errors also propagate), sanitize with the empty-content
fallbacks, and post-process; without an article config a placeholder
record referencing the URL is returned. -/
def process_article_fetch (d : ProcDeps) (hasConfig : Bool) (url : String) :
    Except String ArticleRecord :=
  match d.net url with
  | .error e => .error e
  | .ok (content, finalUrl) =>
    if hasConfig then
      match d.extractArticle finalUrl content with
      | .error e => .error e
      | .ok extracted =>
        match extracted.content with
        | none => .ok ⟨none, none, extracted.title, extracted.author, extracted.date⟩
        | some c0 =>
          if c0 = "" then
            .ok ⟨none, some "", extracted.title, extracted.author, extracted.date⟩
          else
            let s1 := d.sanitize c0
            let s2 :=
              if pyStrip s1 = "" then
                let sw := d.sanitize ("<div>" ++ c0 ++ "</div>")
                if pyStrip sw = "" then
                  "<p>Content could not be sanitized from " ++ url ++ "</p>"
                else sw
              else s1
            let s3 := d.processImages (d.applyRepl (d.improveTypography s2))
            .ok ⟨none, some s3, extracted.title, extracted.author, extracted.date⟩
    else
      .ok ⟨some url, some ("<p>No article configuration provided for " ++ url ++ "</p>"),
        some url, none, none⟩

/-- `GensiProcessor._process_article` (processor.py lines 337-449): an
article reference with non-empty inline content is sanitized and
post-processed without a fetch; otherwise the fetch-and-extract path
runs. -/
def process_article (d : ProcDeps) (hasConfig : Bool) (a : ArticleData) :
    Except String ArticleRecord :=
  match a.content with
  | some c =>
    if c = "" then process_article_fetch d hasConfig a.url
    else
      let s := d.processImages (d.applyRepl (d.improveTypography (d.sanitize c)))
      .ok ⟨some a.url, some s, a.title, a.author, a.date⟩
  | none => process_article_fetch d hasConfig a.url

/-- The article fan-out of `GensiProcessor.process` (processor.py lines
116-142): `asyncio.gather` without `return_exceptions`, so the first
per-article exception propagates out of `process` and aborts the run
(modelled sequentially in reference order; bounded parallelism does not
change which runs complete). -/
def processArticles (d : ProcDeps) (hasConfig : Bool) :
    List ArticleData → Except String (List ArticleRecord)
  | [] => .ok []
  | a :: rest =>
    match process_article d hasConfig a with
    | .error e => .error e
    | .ok r =>
      match processArticles d hasConfig rest with
      | .error e => .error e
      | .ok rs => .ok (r :: rs)

/-! ## Concrete inputs for the settled claims -/

/-- The document of tests/test_extractor.py
`test_extract_article_metadata_from_removed_element` (insignificant
inter-element whitespace omitted): a page title in the head, and an
article whose `title-lead` div holds the h1 title, author span and date
time element, followed by the content div. -/
def c1doc : HNode :=
  .elem "html" [] "" (HForest.ofList
    [ .elem "head" [] "" (HForest.ofList
        [ .elem "title" [] "Page Title" .nil "" ]) ""
    , .elem "body" [] "" (HForest.ofList
        [ .elem "article" [] "" (HForest.ofList
            [ .elem "div" [("class", "title-lead")] "" (HForest.ofList
                [ .elem "h1" [("class", "title")] "Article Title" .nil ""
                , .elem "p" [("class", "byline")] "" (HForest.ofList
                    [ .elem "span" [("class", "author")] "Jane Smith" .nil ""
                    , .elem "time" [("class", "date"), ("datetime", "2025-01-20")]
                        "January 20, 2025" .nil "" ]) "" ]) ""
            , .elem "div" [("class", "content")] "" (HForest.ofList
                [ .elem "p" [] "This is the actual article content that should remain." .nil ""
                , .elem "p" [] "More content here." .nil "" ]) "" ]) "" ]) "" ]) ""

/-- The configuration of that test: content `article`, metadata selectors
inside the removed `div.title-lead`. -/
def c1cfg : ArticleCfg where
  content := some ⟨some "article", none⟩
  title := some ⟨some "h1", some "title"⟩
  author := some ⟨some "span", some "author"⟩
  date := some ⟨some "time", some "date"⟩
  remove := [⟨some "div", some "title-lead"⟩]

/-- A minimal document whose root is the only element. -/
def c7doc : HNode :=
  .elem "html" [] "x" .nil ""

/-- A configuration whose content selector selects the document root and
whose remove list also matches it. -/
def c7cfg : ArticleCfg where
  content := some ⟨some "html", none⟩
  title := none
  author := none
  date := none
  remove := [⟨some "html", none⟩]

/-- Collaborators for the C2 partial-failure scenario: the second of three
articles returns HTTP 404; sanitizer, typography, replacements and image
pipeline are the identity; extraction returns the fetched body as
content. -/
def c2deps : ProcDeps where
  net := fun u =>
    if u = "http://e/a2" then .error "Failed to fetch http://e/a2: HTTP 404"
    else .ok ("<p>body of " ++ u ++ "</p>", u)
  sanitize := id
  improveTypography := id
  applyRepl := id
  processImages := id
  extractArticle := fun _ c => .ok ⟨some c, some "T", none, none⟩

/-- Three article references, none with inline content. -/
def c2articles : List ArticleData :=
  [ ⟨"http://e/a1", none, none, none, none⟩
  , ⟨"http://e/a2", none, none, none, none⟩
  , ⟨"http://e/a3", none, none, none, none⟩ ]

/-- A small index page: one anchor with a relative href, one with an empty
href and one without any href. -/
def c9doc : HNode :=
  .elem "html" [] "" (HForest.ofList
    [ .elem "a" [("href", "b.html")] "first" .nil ""
    , .elem "a" [("href", "")] "second" .nil ""
    , .elem "a" [] "third" .nil "" ]) ""

end Gensi

namespace Gensi

/-- Association-list lookup misses when no stored key equals the probe. -/
theorem lookup_eq_none_of_forall_ne {β : Type} (l : List (String × β)) (k : String)
    (h : ∀ e ∈ l, e.1 ≠ k) : l.lookup k = none := by
  induction l with
  | nil => rfl
  | cons e es ih =>
    have hek : (k == e.1) = false :=
      beq_eq_false_iff_ne.mpr (Ne.symm (h e (List.mem_cons_self e es)))
    have hrest : es.lookup k = none :=
      ih (fun x hx => h x (List.mem_cons_of_mem e hx))
    simp [List.lookup, hek, hrest]

/-- Appending different suffixes to the same string yields different strings. -/
theorem string_append_ne_of_ne (a b c : String) (hbc : b.data ≠ c.data) :
    a ++ b ≠ a ++ c := by
  intro h
  apply hbc
  have hd : a.data ++ b.data = a.data ++ c.data := congrArg String.data h
  exact List.append_cancel_left hd

/-- Claim C4: for the cache store, `set(url, payload, final_url, kind)`
followed by `get(url, kind)` returns the same payload and the stored
resolved URL; a `get` for a key that was never set returns a miss (`none`),
never an error; and the `text` and `binary` kinds for the same URL map to
distinct cache keys, so the two entries never collide. -/
theorem cache_set_get_roundtrip_miss_nocollide (h : String → String) (c : HttpCache)
    (url content final_url : String) (ct : ContentType) :
    ((c.set h url content final_url ct).get h url ct = some ⟨content, final_url, url⟩)
    ∧ (∀ url2 ct2, (∀ e ∈ c.entries, e.1 ≠ make_cache_key h url2 ct2) →
        c.get h url2 ct2 = none)
    ∧ make_cache_key h url .text ≠ make_cache_key h url .binary := by
  refine ⟨?_, ?_, ?_⟩
  · simp [HttpCache.get, HttpCache.set, List.lookup]
  · intro url2 ct2 hk
    exact lookup_eq_none_of_forall_ne c.entries (make_cache_key h url2 ct2) hk
  · exact string_append_ne_of_ne (h url ++ "_") "text" "binary" (by decide)

/-- Witness for C4 at concrete inputs: an empty cache misses, and the two
kinds of key for one URL differ. -/
theorem cache_set_get_roundtrip_miss_nocollide_witness :
    HttpCache.empty.get id "u" ContentType.text = none
    ∧ make_cache_key id "u" ContentType.text ≠ make_cache_key id "u" ContentType.binary :=
  ⟨(cache_set_get_roundtrip_miss_nocollide id HttpCache.empty "u" "p" "f" .text).2.1
      "u" ContentType.text (by intro e he; cases he),
   (cache_set_get_roundtrip_miss_nocollide id HttpCache.empty "u" "p" "f" .text).2.2⟩

/-- Claim C3: fetch and fetch_binary with context `index` neither read nor
write the cache — two sequential index fetches of the same URL both hit the
network even when caching is enabled — while contexts `cover`, `article`
and `image` consult the cache before the network (a hit issues no network
call) and write through on a miss when caching is enabled. -/
theorem index_bypasses_cache_others_consult (h : String → String)
    (net : String → Except String (String × String)) (cache : HttpCache) (url : String) :
    (∀ enabled,
      (CachedFetcher.fetch h enabled net cache url .index).netCalls = [url]
      ∧ (CachedFetcher.fetch h enabled net cache url .index).cache = cache
      ∧ (CachedFetcher.fetch h enabled net
          (CachedFetcher.fetch h enabled net cache url .index).cache url .index).netCalls = [url]
      ∧ (CachedFetcher.fetch_binary h enabled net cache url .index).netCalls = [url]
      ∧ (CachedFetcher.fetch_binary h enabled net cache url .index).cache = cache)
    ∧ (∀ ctx, ctx ≠ FetchContext.index →
      (∀ e, cache.get h url .text = some e →
        CachedFetcher.fetch h true net cache url ctx = ⟨.ok (e.content, e.final_url), cache, []⟩)
      ∧ (cache.get h url .text = none →
        (CachedFetcher.fetch h true net cache url ctx).netCalls = [url]
        ∧ ∀ content fu, net url = .ok (content, fu) →
            (CachedFetcher.fetch h true net cache url ctx).cache
              = cache.set h url content fu .text)
      ∧ (∀ e, cache.get h url .binary = some e →
        CachedFetcher.fetch_binary h true net cache url ctx
          = ⟨.ok (e.content, e.final_url), cache, []⟩)
      ∧ (cache.get h url .binary = none →
        (CachedFetcher.fetch_binary h true net cache url ctx).netCalls = [url]
        ∧ ∀ content fu, net url = .ok (content, fu) →
            (CachedFetcher.fetch_binary h true net cache url ctx).cache
              = cache.set h url content fu .binary)) := by
  have hsc : ∀ enabled, should_cache enabled FetchContext.index = false := by
    intro enabled; cases enabled <;> rfl
  have hsc2 : ∀ ctx, ctx ≠ FetchContext.index → should_cache true ctx = true := by
    intro ctx hctx; cases ctx <;> simp_all [should_cache]
  constructor
  · intro enabled
    unfold CachedFetcher.fetch CachedFetcher.fetch_binary
    rw [hsc]
    simp only [Bool.false_eq_true, if_false]
    cases hnet : net url with
    | ok p => cases p <;> simp
    | error e => simp
  · intro ctx hctx
    unfold CachedFetcher.fetch CachedFetcher.fetch_binary
    rw [hsc2 ctx hctx]
    simp only [if_true]
    refine ⟨?_, ?_, ?_, ?_⟩
    · intro e he; rw [he]
    · intro hmiss; rw [hmiss]
      cases hnet : net url with
      | ok p =>
        cases p with
        | mk content fu =>
          refine ⟨rfl, ?_⟩
          intro content2 fu2 hnet2
          cases hnet2
          rfl
      | error e =>
        refine ⟨rfl, ?_⟩
        intro content2 fu2 hnet2
        cases hnet2
    · intro e he; rw [he]
    · intro hmiss; rw [hmiss]
      cases hnet : net url with
      | ok p =>
        cases p with
        | mk content fu =>
          refine ⟨rfl, ?_⟩
          intro content2 fu2 hnet2
          cases hnet2
          rfl
      | error e =>
        refine ⟨rfl, ?_⟩
        intro content2 fu2 hnet2
        cases hnet2

/-- Witness for C3 at concrete inputs: with an enabled cache, an `index`
fetch on an empty cache issues a network call and leaves the cache
untouched, and an `article` fetch on a cache miss also hits the network. -/
theorem index_bypasses_cache_others_consult_witness :
    (CachedFetcher.fetch id true (fun u => .ok ("body", u)) HttpCache.empty "u" .index).netCalls = ["u"]
    ∧ (CachedFetcher.fetch id true (fun u => .ok ("body", u)) HttpCache.empty "u" .article).netCalls = ["u"] :=
  ⟨((index_bypasses_cache_others_consult id (fun u => .ok ("body", u)) HttpCache.empty "u").1 true).1,
   (((index_bypasses_cache_others_consult id (fun u => .ok ("body", u)) HttpCache.empty "u").2
      FetchContext.article (by decide)).2.1 (by rfl)).1⟩

/-- Claim C10: `apply_replacements` applies the rules strictly in list
order (peeling the head rule first); an empty rule list is the identity;
a regex rule whose pattern fails to compile (the `re.sub` model returns
`none`) is skipped while the remaining rules are still applied; a literal
rule performs a Python `str.replace`, replacing every occurrence, as the
concrete run on two occurrences shows. -/
theorem apply_replacements_order_identity_skip_literal :
    (∀ rsub content (r : Replacement) rs,
      apply_replacements rsub content (r :: rs)
        = apply_replacements rsub (applyOneReplacement rsub content r) rs)
    ∧ (∀ rsub content, apply_replacements rsub content [] = content)
    ∧ (∀ rsub content (r : Replacement) rs, r.regex = true →
        (∀ rep s, rsub r.pattern rep s = none) →
        apply_replacements rsub content (r :: rs) = apply_replacements rsub content rs)
    ∧ (∀ rsub content (r : Replacement), r.regex = false →
        applyOneReplacement rsub content r = pyReplace content r.pattern r.replacement)
    ∧ apply_replacements (fun _ _ _ => none) "a.b.c"
        [⟨".", "-", false⟩] = "a-b-c" := by
  have horder : ∀ rsub content (r : Replacement) rs,
      apply_replacements rsub content (r :: rs)
        = apply_replacements rsub (applyOneReplacement rsub content r) rs := by
    intro rsub content r rs
    cases rs <;> simp [apply_replacements]
  refine ⟨horder, ?_, ?_, ?_, ?_⟩
  · intro rsub content; rfl
  · intro rsub content r rs hreg hnone
    have h1 : applyOneReplacement rsub content r = content := by
      simp [applyOneReplacement, hreg, hnone]
    rw [horder, h1]
  · intro rsub content r hreg
    simp [applyOneReplacement, hreg]
  · rfl

/-- First-seen de-duplication returns a subsequence of its input. -/
theorem dedupFirstSeenAux_sublist (l : List String) :
    ∀ seen, List.Sublist (dedupFirstSeenAux seen l) l := by
  induction l with
  | nil => intro seen; exact List.Sublist.refl []
  | cons x xs ih =>
    intro seen
    cases hx : seen.contains x with
    | true =>
      simp only [dedupFirstSeenAux, hx, if_true]
      exact (ih seen).cons x
    | false =>
      simp only [dedupFirstSeenAux, hx, Bool.false_eq_true, if_false]
      exact (ih (x :: seen)).cons₂ x

/-- Nothing already seen is emitted by first-seen de-duplication. -/
theorem dedupFirstSeenAux_not_seen (l : List String) :
    ∀ seen x, x ∈ dedupFirstSeenAux seen l → seen.contains x = false := by
  induction l with
  | nil => intro seen x hx; cases hx
  | cons y ys ih =>
    intro seen x hx
    cases hy : seen.contains y with
    | true =>
      rw [dedupFirstSeenAux, if_pos hy] at hx
      exact ih seen x hx
    | false =>
      rw [dedupFirstSeenAux, hy] at hx
      simp only [Bool.false_eq_true, if_false] at hx
      rcases List.mem_cons.mp hx with hxy | hx2
      · subst hxy; exact hy
      · have h2 := ih (y :: seen) x hx2
        simp only [List.contains_cons, Bool.or_eq_false_iff] at h2
        exact h2.2

/-- First-seen de-duplication emits no duplicates. -/
theorem dedupFirstSeenAux_nodup (l : List String) :
    ∀ seen, (dedupFirstSeenAux seen l).Nodup := by
  induction l with
  | nil => intro seen; exact List.nodup_nil
  | cons y ys ih =>
    intro seen
    cases hy : seen.contains y with
    | true =>
      rw [dedupFirstSeenAux, if_pos hy]
      exact ih seen
    | false =>
      rw [dedupFirstSeenAux, hy]
      simp only [Bool.false_eq_true, if_false]
      refine List.nodup_cons.mpr ⟨?_, ih (y :: seen)⟩
      intro hmem
      have h2 := dedupFirstSeenAux_not_seen ys (y :: seen) y hmem
      simp [List.contains_cons] at h2

/-- First-seen de-duplication keeps every unseen element of its input:
nothing is dropped except repeats. -/
theorem dedupFirstSeenAux_mem (l : List String) :
    ∀ (seen : List String) (u : String), u ∈ l → seen.contains u = false →
      u ∈ dedupFirstSeenAux seen l := by
  induction l with
  | nil => intro seen u hu _; cases hu
  | cons x xs ih =>
    intro seen u hu hns
    cases hx : seen.contains x with
    | true =>
      rw [dedupFirstSeenAux, if_pos hx]
      rcases List.mem_cons.mp hu with h | h
      · subst h; rw [hns] at hx; cases hx
      · exact ih seen u h hns
    | false =>
      rw [dedupFirstSeenAux, hx]
      simp only [Bool.false_eq_true, if_false]
      by_cases hux : u = x
      · subst hux; exact List.mem_cons_self u _
      · have hbx : (u == x) = false := beq_eq_false_iff_ne.mpr hux
        refine List.mem_cons_of_mem x (ih (x :: seen) u ?_ ?_)
        · rcases List.mem_cons.mp hu with h | h
          · exact absurd h hux
          · exact h
        · rw [List.contains_cons, hbx, Bool.false_or]
          exact hns

/-- First-seen de-duplication emits its elements ordered by the index of
their first occurrence in the input: the first-seen order. -/
theorem dedupFirstSeenAux_pairwise_idx : ∀ (l seen : List String),
    List.Pairwise (fun u v => l.indexOf u < l.indexOf v) (dedupFirstSeenAux seen l) := by
  intro l
  induction l with
  | nil => intro seen; exact List.Pairwise.nil
  | cons x xs ih =>
    intro seen
    cases hx : seen.contains x with
    | true =>
      rw [dedupFirstSeenAux, if_pos hx]
      refine List.Pairwise.imp_of_mem ?_ (ih seen)
      intro u v hu hv huv
      have hun : seen.contains u = false := dedupFirstSeenAux_not_seen xs seen u hu
      have hvn : seen.contains v = false := dedupFirstSeenAux_not_seen xs seen v hv
      have hux : x ≠ u := by intro h; subst h; rw [hun] at hx; cases hx
      have hvx : x ≠ v := by intro h; subst h; rw [hvn] at hx; cases hx
      rw [List.indexOf_cons_ne _ hux, List.indexOf_cons_ne _ hvx]
      omega
    | false =>
      rw [dedupFirstSeenAux, hx]
      simp only [Bool.false_eq_true, if_false]
      refine List.pairwise_cons.mpr ⟨?_, ?_⟩
      · intro v hv
        have hvn := dedupFirstSeenAux_not_seen xs (x :: seen) v hv
        have hvx : x ≠ v := by
          intro h
          subst h
          simp [List.contains_cons] at hvn
        rw [List.indexOf_cons_self, List.indexOf_cons_ne _ hvx]
        omega
      · refine List.Pairwise.imp_of_mem ?_ (ih (x :: seen))
        intro u v hu hv huv
        have hun := dedupFirstSeenAux_not_seen xs (x :: seen) u hu
        have hvn := dedupFirstSeenAux_not_seen xs (x :: seen) v hv
        have hux : x ≠ u := by intro h; subst h; simp [List.contains_cons] at hun
        have hvx : x ≠ v := by intro h; subst h; simp [List.contains_cons] at hvn
        rw [List.indexOf_cons_ne _ hux, List.indexOf_cons_ne _ hvx]
        omega

/-- First-seen de-duplication keeps exactly one occurrence of each
distinct element: its length is the number of distinct elements (the
length of the reference `List.dedup`). -/
theorem dedupFirstSeen_length_eq (l : List String) :
    (dedupFirstSeen l).length = l.dedup.length := by
  have h1 : (dedupFirstSeen l).toFinset = l.toFinset := by
    ext u
    simp only [List.mem_toFinset]
    constructor
    · intro hu
      exact (dedupFirstSeenAux_sublist l []).subset hu
    · intro hu
      exact dedupFirstSeenAux_mem l [] u hu rfl
  have h2 : (dedupFirstSeen l).Nodup := dedupFirstSeenAux_nodup l []
  have h3 : l.dedup.toFinset = l.toFinset := by
    ext u
    simp [List.mem_toFinset, List.mem_dedup]
  calc (dedupFirstSeen l).length
      = (dedupFirstSeen l).toFinset.card := (List.toFinset_card_of_nodup h2).symm
    _ = l.toFinset.card := by rw [h1]
    _ = l.dedup.toFinset.card := by rw [h3]
    _ = l.dedup.length := List.toFinset_card_of_nodup (List.nodup_dedup l)

/-- Claim C5: for a social-feed (bluesky) index resolved without a script,
an explicit upstream error field is raised as an error; otherwise every
returned reference comes from an entry carrying a link-card attachment
(entries without one are dropped), a configured domain filter `d` admits
only hosts equal to `d` or subdomains of it, and the card URLs are
de-duplicated by URL preserving first-seen order before any cap is
applied: the result is a subsequence of the card URLs without duplicates,
ordered by the index of each URL's first occurrence, its length is the
minimum of the configured limit and the number of distinct URLs (so the
cap is applied to the de-duplicated list, never before de-duplication),
the result contains every distinct URL whenever the limit does not bind,
and it is strictly capped at the configured limit. -/
theorem parse_bluesky_feed_props (feed : BskyFeed) (d : String) (lim : Nat) :
    (∀ e, feed.apiError = some e →
      parse_bluesky_feed feed (some d) lim
        = .error ("Bluesky API error: " ++ feed.apiMessage.getD e))
    ∧ (∀ res, feed.apiError = none →
      parse_bluesky_feed feed (some d) lim = .ok res →
      res.length ≤ lim ∧ res.Nodup
      ∧ List.Sublist res (feed.feed.filterMap (fun p => p.cardUri))
      ∧ (∀ u, u ∈ res → domainMatches d u = true
          ∧ ∃ post, post ∈ feed.feed ∧ post.cardUri = some u)
      ∧ res.length = min lim
          (((feed.feed.filterMap (fun p => p.cardUri)).filter (domainMatches d)).dedup.length)
      ∧ List.Pairwise (fun u v =>
          ((feed.feed.filterMap (fun p => p.cardUri)).filter (domainMatches d)).indexOf u
            < ((feed.feed.filterMap (fun p => p.cardUri)).filter (domainMatches d)).indexOf v)
          res
      ∧ (((feed.feed.filterMap (fun p => p.cardUri)).filter (domainMatches d)).dedup.length ≤ lim →
          ∀ u ∈ (feed.feed.filterMap (fun p => p.cardUri)).filter (domainMatches d), u ∈ res))
    ∧ (∀ res, feed.apiError = none →
      parse_bluesky_feed feed none lim = .ok res →
      res.length ≤ lim ∧ res.Nodup
      ∧ List.Sublist res (feed.feed.filterMap (fun p => p.cardUri))
      ∧ res.length = min lim ((feed.feed.filterMap (fun p => p.cardUri)).dedup.length)
      ∧ List.Pairwise (fun u v =>
          (feed.feed.filterMap (fun p => p.cardUri)).indexOf u
            < (feed.feed.filterMap (fun p => p.cardUri)).indexOf v) res
      ∧ ((feed.feed.filterMap (fun p => p.cardUri)).dedup.length ≤ lim →
          ∀ u ∈ feed.feed.filterMap (fun p => p.cardUri), u ∈ res)) := by
  refine ⟨?_, ?_, ?_⟩
  · intro e he
    simp [parse_bluesky_feed, he]
  · intro res he hok
    simp only [parse_bluesky_feed, he] at hok
    rw [Except.ok.injEq] at hok
    subst hok
    have hsub1 : List.Sublist ((dedupFirstSeen
        ((feed.feed.filterMap (fun p => p.cardUri)).filter (domainMatches d))).take lim)
        (((feed.feed.filterMap (fun p => p.cardUri)).filter (domainMatches d))) :=
      (List.take_sublist _ _).trans (dedupFirstSeenAux_sublist _ [])
    refine ⟨List.length_take_le _ _, ?_, ?_, ?_, ?_, ?_, ?_⟩
    · exact List.Nodup.sublist (List.take_sublist _ _) (dedupFirstSeenAux_nodup _ [])
    · exact hsub1.trans (List.filter_sublist _)
    · intro u hu
      have hfil := hsub1.subset hu
      have hmf := List.mem_filter.mp hfil
      refine ⟨hmf.2, ?_⟩
      rcases List.mem_filterMap.mp hmf.1 with ⟨post, hpost, hcard⟩
      exact ⟨post, hpost, hcard⟩
    · rw [List.length_take, dedupFirstSeen_length_eq]
    · exact List.Pairwise.sublist (List.take_sublist _ _)
        (dedupFirstSeenAux_pairwise_idx _ [])
    · intro hlen u hu
      rw [List.take_of_length_le (by rw [dedupFirstSeen_length_eq]; exact hlen)]
      exact dedupFirstSeenAux_mem _ [] u hu rfl
  · intro res he hok
    simp only [parse_bluesky_feed, he] at hok
    rw [Except.ok.injEq] at hok
    subst hok
    refine ⟨List.length_take_le _ _, ?_, ?_, ?_, ?_, ?_⟩
    · exact List.Nodup.sublist (List.take_sublist _ _) (dedupFirstSeenAux_nodup _ [])
    · exact (List.take_sublist _ _).trans (dedupFirstSeenAux_sublist _ [])
    · rw [List.length_take, dedupFirstSeen_length_eq]
    · exact List.Pairwise.sublist (List.take_sublist _ _)
        (dedupFirstSeenAux_pairwise_idx _ [])
    · intro hlen u hu
      rw [List.take_of_length_le (by rw [dedupFirstSeen_length_eq]; exact hlen)]
      exact dedupFirstSeenAux_mem _ [] u hu rfl

/-- Witness for C5 at a concrete feed able to tell first-seen-dedup-then-cap
apart from its rivals: card URLs `[r1, r1, r2, r1]` (plus a card-less entry
and an off-domain entry) with limit 2 yield exactly `[r1, r2]` — a
cap-before-dedup would yield `[r1]` and a last-seen de-duplication
`[r2, r1]` — and the theorem supplies the length and domain-match facts. -/
theorem parse_bluesky_feed_props_witness :
    parse_bluesky_feed
        ⟨none, none, [⟨some "https://republik.ch/a1"⟩, ⟨none⟩,
          ⟨some "https://republik.ch/a1"⟩, ⟨some "https://other.com/x"⟩,
          ⟨some "https://www.republik.ch/a2"⟩, ⟨some "https://republik.ch/a1"⟩]⟩
        (some "republik.ch") 2
      = .ok ["https://republik.ch/a1", "https://www.republik.ch/a2"]
    ∧ (["https://republik.ch/a1", "https://www.republik.ch/a2"] : List String).length
        = min 2 ((([ "https://republik.ch/a1", "https://republik.ch/a1",
            "https://other.com/x", "https://www.republik.ch/a2",
            "https://republik.ch/a1"] : List String).filter
            (domainMatches "republik.ch")).dedup.length)
    ∧ domainMatches "republik.ch" "https://republik.ch/a1" = true := by
  refine ⟨rfl, ?_, ?_⟩
  · exact ((parse_bluesky_feed_props
      ⟨none, none, [⟨some "https://republik.ch/a1"⟩, ⟨none⟩,
        ⟨some "https://republik.ch/a1"⟩, ⟨some "https://other.com/x"⟩,
        ⟨some "https://www.republik.ch/a2"⟩, ⟨some "https://republik.ch/a1"⟩]⟩
      "republik.ch" 2).2.1
      ["https://republik.ch/a1", "https://www.republik.ch/a2"] rfl rfl).2.2.2.2.1
  · exact (((parse_bluesky_feed_props
      ⟨none, none, [⟨some "https://republik.ch/a1"⟩, ⟨none⟩,
        ⟨some "https://republik.ch/a1"⟩, ⟨some "https://other.com/x"⟩,
        ⟨some "https://www.republik.ch/a2"⟩, ⟨some "https://republik.ch/a1"⟩]⟩
      "republik.ch" 2).2.1
      ["https://republik.ch/a1", "https://www.republik.ch/a2"] rfl rfl).2.2.2.1
      "https://republik.ch/a1" (by simp)).1

/-- Whether an `Except` value is an error. -/
def exceptIsError {ε α : Type} : Except ε α → Bool
  | .error _ => true
  | .ok _ => false

/-- Claim C1: evaluating `extract_article_content` (simple-selector mode)
at the input of the repository's own test
`test_extract_article_metadata_from_removed_element`, where the metadata
selectors target nodes inside the removed `div.title-lead`.  The code
removes the matching subtree from the live tree (not from a clone of the
document) before metadata extraction, so the title selector misses and
falls back to the page `<title>` ("Page Title" instead of the expected
"Article Title"), and author and date come out `none` instead of
"Jane Smith" / "January 20, 2025" — the metadata fields are NOT extracted
non-empty as the claim (and the test) require, while the text is indeed
absent from the serialized content. -/
theorem extract_article_removed_metadata_lost :
    extract_article_content_simple "http://example.com/article.html" c1doc c1cfg
      = .ok ⟨some ("<article><div class=\"content\">"
            ++ "<p>This is the actual article content that should remain.</p>"
            ++ "<p>More content here.</p></div></article>"),
          some "Page Title", none, none⟩ := by
  rfl

/-- Claim C6: the script-mode return shapes of `extract_article_content`.
A string return is taken as the content with the metadata fallback chain
supplying title, author and date; a dict return with a `content` key keeps
that content and applies the fallback only to the metadata fields that are
absent (Python-falsy: missing or empty); a dict without a `content` key
and any non-string, non-dict return are hard errors aborting extraction. -/
theorem article_script_return_shapes (doc : HNode) (s : String)
    (cv : Option String) (t a d : Option String) :
    (extract_article_content_python doc (.str s)
      = .ok ⟨some s, (extract_metadata_fallback doc).title,
          (extract_metadata_fallback doc).author, (extract_metadata_fallback doc).date⟩)
    ∧ (extract_article_content_python doc (.dict (some cv) t a d)
      = .ok ⟨cv,
          if pyFalsy t then (extract_metadata_fallback doc).title else t,
          if pyFalsy a then (extract_metadata_fallback doc).author else a,
          if pyFalsy d then (extract_metadata_fallback doc).date else d⟩)
    ∧ exceptIsError (extract_article_content_python doc (.dict none t a d)) = true
    ∧ exceptIsError (extract_article_content_python doc .other) = true := by
  refine ⟨rfl, ?_, rfl, rfl⟩
  cases hpt : pyFalsy t <;> cases hpa : pyFalsy a <;> cases hpd : pyFalsy d <;>
    simp [extract_article_content_python, hpt, hpa, hpd]

/-- Counterexample for C2: one of three article fetches returns HTTP 404
and the run does NOT complete — the article fan-out propagates the fetch
error (there is no per-article handler in `_process_article`), so no list
of three records, and no placeholder record for the failed article, is
ever produced. -/
theorem partial_failure_aborts_run :
    processArticles c2deps true c2articles
      = .error "Failed to fetch http://e/a2: HTTP 404"
    ∧ ∀ recs, processArticles c2deps true c2articles ≠ .ok recs := by
  refine ⟨rfl, ?_⟩
  intro recs h
  rw [(rfl : processArticles c2deps true c2articles
      = .error "Failed to fetch http://e/a2: HTTP 404")] at h
  cases h

/-- A completed `_process_article` on the fetch path implies its fetch
succeeded, and (when an article config exists) its extraction succeeded. -/
theorem process_article_ok_fetch_ok (d : ProcDeps) (hasConfig : Bool)
    (a : ArticleData) (r : ArticleRecord)
    (h : process_article d hasConfig a = .ok r) (hfal : pyFalsy a.content = true) :
    (∃ p, d.net a.url = .ok p)
    ∧ (hasConfig = true → ∀ c f, d.net a.url = .ok (c, f) →
        ∃ rr, d.extractArticle f c = .ok rr) := by
  have hfetch : process_article_fetch d hasConfig a.url = .ok r := by
    cases hac : a.content with
    | none => rw [process_article, hac] at h; exact h
    | some c =>
      have hc : c = "" := by
        rw [hac] at hfal; simpa [pyFalsy] using hfal
      subst hc
      rw [process_article, hac] at h
      simpa using h
  cases hnet : d.net a.url with
  | error e => simp [process_article_fetch, hnet] at hfetch
  | ok p =>
    obtain ⟨c0, f0⟩ := p
    refine ⟨⟨(c0, f0), rfl⟩, ?_⟩
    intro hcfg c f hnet2
    cases hnet2
    subst hcfg
    simp only [process_article_fetch, hnet, if_true] at hfetch
    cases hex : d.extractArticle f0 c0 with
    | error e => simp [hex] at hfetch
    | ok rr => exact ⟨rr, rfl⟩

/-- Claim C2 (amended): a failure fetching or extracting a single article
aborts the run — if the article fan-out completes with a list of records,
then every article that had to be fetched (no inline content) had a
successful fetch, and, when an article config exists, a successful
extraction; no partial-failure placeholder record exists for fetch
failures.  (The placeholder paths in the source cover only unsanitizable
content and a missing article configuration.) -/
theorem processing_completion_requires_all_fetches (d : ProcDeps) (hasConfig : Bool) :
    ∀ (articles : List ArticleData) (recs : List ArticleRecord),
      processArticles d hasConfig articles = .ok recs →
      ∀ a ∈ articles, pyFalsy a.content = true →
        (∃ p, d.net a.url = .ok p)
        ∧ (hasConfig = true → ∀ c f, d.net a.url = .ok (c, f) →
            ∃ rr, d.extractArticle f c = .ok rr) := by
  intro articles
  induction articles with
  | nil => intro recs h a ha; cases ha
  | cons x xs ih =>
    intro recs h a ha
    rw [processArticles] at h
    cases hx : process_article d hasConfig x with
    | error e => rw [hx] at h; cases h
    | ok r =>
      rw [hx] at h
      cases hxs : processArticles d hasConfig xs with
      | error e => rw [hxs] at h; cases h
      | ok rs =>
        intro hfal
        rcases List.mem_cons.mp ha with hax | hax
        · subst hax
          exact process_article_ok_fetch_ok d hasConfig a r hx hfal
        · exact ih rs hxs a hax hfal

/-- Witness for the amended C2 at concrete inputs: a run whose three
fetches all succeed completes, and the theorem then yields the success of
the first article's fetch. -/
theorem processing_completion_requires_all_fetches_witness :
    ∃ p, ({ c2deps with net := fun u => .ok ("<p>b</p>", u) } : ProcDeps).net
        "http://e/a1" = .ok p :=
  (processing_completion_requires_all_fetches
    { c2deps with net := fun u => .ok ("<p>b</p>", u) } true c2articles
    [ ⟨none, some "<p>b</p>", some "T", none, none⟩
    , ⟨none, some "<p>b</p>", some "T", none, none⟩
    , ⟨none, some "<p>b</p>", some "T", none, none⟩ ]
    rfl ⟨"http://e/a1", none, none, none, none⟩ (by simp [c2articles]) rfl).1

/-- Scanning a valid scheme followed by a colon succeeds. -/
theorem splitSchemeAux_append (a : List Char) (t : List Char)
    (ha : ∀ c ∈ a, schemeChar c = true) :
    splitSchemeAux (a ++ ':' :: t) = some (a, t) := by
  induction a with
  | nil => simp [splitSchemeAux]
  | cons c cs ih =>
    have hc : schemeChar c = true := ha c (List.mem_cons_self c cs)
    have hcc : ¬(c = ':') := by
      intro h; subst h; exact absurd hc (by decide)
    simp only [List.cons_append, splitSchemeAux, if_neg hcc, hc, if_true, List.append_eq]
    rw [ih (fun x hx => ha x (List.mem_cons_of_mem c hx))]
    rfl

/-- The characters accepted by the scheme scanner are scheme characters. -/
theorem splitSchemeAux_chars : ∀ (l a r : List Char),
    splitSchemeAux l = some (a, r) → ∀ c ∈ a, schemeChar c = true := by
  intro l
  induction l with
  | nil => intro a r h; cases h
  | cons c0 rest ih =>
    intro a r h c hc
    by_cases h0 : c0 = ':'
    · rw [splitSchemeAux, if_pos h0] at h
      cases h
      cases hc
    · by_cases h1 : schemeChar c0 = true
      · rw [splitSchemeAux, if_neg h0, if_pos h1] at h
        cases hrec : splitSchemeAux rest with
        | none => rw [hrec] at h; cases h
        | some p =>
          rw [hrec] at h
          cases h
          rcases List.mem_cons.mp hc with h2 | h2
          · subst h2; exact h1
          · exact ih p.1 p.2 (by rw [hrec]) c h2
      · rw [splitSchemeAux, if_neg h0, if_neg h1] at h
        cases h

/-- A successfully split scheme is non-empty, starts with a letter, and
consists of scheme characters. -/
theorem splitScheme_shape (s sch rest : String) (h : splitScheme s = some (sch, rest)) :
    (∃ c cs, sch.data = c :: cs ∧ c.isAlpha = true)
    ∧ ∀ c ∈ sch.data, schemeChar c = true := by
  unfold splitScheme at h
  cases hd : s.data with
  | nil => rw [hd, splitSchemeList] at h; cases h
  | cons c0 tail =>
    rw [hd, splitSchemeList] at h
    by_cases ha : c0.isAlpha = true
    · rw [if_pos ha] at h
      cases haux : splitSchemeAux (c0 :: tail) with
      | none => rw [haux] at h; cases h
      | some p =>
        rw [haux] at h
        cases h
        have hc0ne : ¬(c0 = ':') := by
          intro hx; subst hx; exact absurd ha (by decide)
        have hsc : schemeChar c0 = true := by simp [schemeChar, ha]
        rw [splitSchemeAux, if_neg hc0ne, if_pos hsc] at haux
        cases hrec : splitSchemeAux tail with
        | none => rw [hrec] at haux; cases haux
        | some q =>
          rw [hrec] at haux
          cases haux
          constructor
          · exact ⟨c0, q.1, rfl, ha⟩
          · intro c hc
            rcases List.mem_cons.mp hc with h2 | h2
            · subst h2; exact hsc
            · exact splitSchemeAux_chars tail q.1 q.2 (by rw [hrec]) c h2
    · rw [if_neg ha] at h
      cases h

/-- A string whose characters start with a letter and scan as
`scheme:rest` has a scheme. -/
theorem hasScheme_intro (s : String) (c : Char) (cs : List Char)
    (p : List Char × List Char)
    (hd : s.data = c :: cs) (ha : c.isAlpha = true)
    (haux : splitSchemeAux (c :: cs) = some p) :
    hasScheme s = true := by
  unfold hasScheme splitScheme
  rw [hd, splitSchemeList, if_pos ha, haux]
  rfl

/-- Prefixing a valid scheme and colon yields a string with a scheme. -/
theorem hasScheme_scheme_append (sch t : String) (c : Char) (cs : List Char)
    (hdata : sch.data = c :: cs) (halpha : c.isAlpha = true)
    (hall : ∀ x ∈ sch.data, schemeChar x = true) :
    hasScheme (sch ++ ":" ++ t) = true := by
  have haux : splitSchemeAux (sch.data ++ ':' :: t.data) = some (sch.data, t.data) :=
    splitSchemeAux_append sch.data t.data hall
  have hd : (sch ++ ":" ++ t).data = c :: (cs ++ ':' :: t.data) := by
    have h1 : (sch ++ ":" ++ t).data = (sch.data ++ [':']) ++ t.data := rfl
    rw [h1, List.append_assoc, hdata]
    rfl
  rw [hdata] at haux
  simp only [List.cons_append] at haux
  exact hasScheme_intro (sch ++ ":" ++ t) c (cs ++ ':' :: t.data) (c :: cs, t.data)
    hd halpha haux

/-- Joining onto a split absolute base yields a URL with a scheme. -/
theorem hasScheme_urljoinWithScheme (sch rest url : String) (c : Char) (cs : List Char)
    (hdata : sch.data = c :: cs) (halpha : c.isAlpha = true)
    (hall : ∀ x ∈ sch.data, schemeChar x = true) :
    hasScheme (urljoinWithScheme sch rest url) = true := by
  unfold urljoinWithScheme
  by_cases h2 : url.data.take 2 = ['/', '/']
  · rw [if_pos h2]
    exact hasScheme_scheme_append sch url c cs hdata halpha hall
  · rw [if_neg h2]
    by_cases h1 : url.data.take 1 = ['/']
    · rw [if_pos h1]
      exact hasScheme_scheme_append sch _ c cs hdata halpha hall
    · rw [if_neg h1]
      exact hasScheme_scheme_append sch _ c cs hdata halpha hall

/-- `urljoin` of an absolute base and any reference is absolute. -/
theorem hasScheme_urljoin (base url : String) (hb : hasScheme base = true) :
    hasScheme (urljoin base url) = true := by
  by_cases hu0 : url = ""
  · rw [urljoin, if_pos hu0]; exact hb
  · by_cases hb0 : base = ""
    · subst hb0; exact absurd hb (by decide)
    · by_cases hsu : hasScheme url = true
      · rw [urljoin, if_neg hu0, if_neg hb0, if_pos hsu]; exact hsu
      · cases hsp : splitScheme base with
        | none =>
          exfalso
          unfold hasScheme at hb
          rw [hsp] at hb
          cases hb
        | some p =>
          obtain ⟨sch, rest⟩ := p
          obtain ⟨⟨c, cs, hdata, halpha⟩, hall⟩ := splitScheme_shape base sch rest hsp
          have hexp : urljoin base url = urljoinWithScheme sch rest url := by
            rw [urljoin, if_neg hu0, if_neg hb0, if_neg hsu, hsp]
          rw [hexp]
          exact hasScheme_urljoinWithScheme sch rest url c cs hdata halpha hall

/-- Claim C9: every article reference produced by markup index extraction
has an absolute URL resolved against the extractor's base URL — in simple
mode each reference comes from a matched anchor with a non-empty `href`
resolved by `resolve_url`, anchors with missing or empty `href` produce no
reference (the output length counts exactly the anchors with a non-empty
`href`), and in script mode every returned reference's URL is resolved and
absolute as well. -/
theorem index_references_absolute (base : String) (linksSel : Sel) (doc : HNode)
    (hb : hasScheme base = true) :
    (∀ a ∈ extract_index_articles_simple base linksSel doc,
      hasScheme a.url = true
      ∧ ∃ n ∈ findAll (nodeMatches linksSel) doc, ∃ h2, getAttr n "href" = some h2
          ∧ h2 ≠ "" ∧ a.url = resolve_url base h2)
    ∧ ((extract_index_articles_simple base linksSel doc).length
        = ((findAll (nodeMatches linksSel) doc).filter
            (fun n => !((getAttr n "href").getD "" == ""))).length)
    ∧ (∀ items out, extract_index_articles_python base items = .ok out →
        ∀ a ∈ out, hasScheme a.url = true) := by
  refine ⟨?_, ?_, ?_⟩
  · intro a ha
    rw [extract_index_articles_simple] at ha
    rcases List.mem_filterMap.mp ha with ⟨n, hn, hf⟩
    by_cases hh : (getAttr n "href").getD "" = ""
    · simp only [if_pos hh] at hf
      cases hf
    · simp only [if_neg hh] at hf
      cases hf
      cases hga : getAttr n "href" with
      | none => exact absurd (by rw [hga]; rfl) hh
      | some h2 =>
        have hh2 : h2 ≠ "" := by
          intro hx
          exact hh (by rw [hga, hx]; rfl)
        exact ⟨hasScheme_urljoin base h2 hb, ⟨n, hn, h2, hga, hh2, rfl⟩⟩
  · have hlen : ∀ (l : List HNode),
        (l.filterMap (fun n =>
          let href := (getAttr n "href").getD ""
          if href = "" then none
          else some (⟨resolve_url base href, none⟩ : IndexArticle))).length
        = (l.filter (fun n => !((getAttr n "href").getD "" == ""))).length := by
      intro l
      induction l with
      | nil => rfl
      | cons x xs ih =>
        by_cases hx : (getAttr x "href").getD "" = ""
        · simp [List.filterMap_cons, List.filter_cons, hx, ih]
        · simp [List.filterMap_cons, List.filter_cons, hx, ih]
    exact hlen _
  · intro items
    induction items with
    | nil =>
      intro out h a ha
      have h3 : (Except.ok ([] : List IndexArticle) : Except String (List IndexArticle))
          = .ok out := h
      cases h3
      cases ha
    | cons item rest ih =>
      intro out h a ha
      cases item with
      | nondict =>
        have h3 : (Except.error "Index Python script must return list of dicts with url key"
            : Except String (List IndexArticle)) = .ok out := h
        cases h3
      | dict ou ct =>
        cases ou with
        | none =>
          have h3 : (Except.error "Index Python script must return list of dicts with url key"
              : Except String (List IndexArticle)) = .ok out := h
          cases h3
        | some u =>
          simp only [extract_index_articles_python] at h
          cases hr : extract_index_articles_python base rest with
          | error e => rw [hr] at h; cases h
          | ok out2 =>
            rw [hr] at h
            have h3 : (Except.ok ((⟨resolve_url base u, ct⟩ : IndexArticle) :: out2)
                : Except String (List IndexArticle)) = .ok out := h
            cases h3
            rcases List.mem_cons.mp ha with h2 | h2
            · subst h2
              exact hasScheme_urljoin base u hb
            · exact ih out2 hr a h2

/-- Witness for C9 at concrete inputs: on a page with one good anchor, one
empty-href anchor and one href-less anchor, exactly one absolute reference
is produced and the theorem certifies its absoluteness. -/
theorem index_references_absolute_witness :
    extract_index_articles_simple "https://x.org/dir/" ⟨some "a", none⟩ c9doc
      = [⟨"https://x.org/dir/b.html", none⟩]
    ∧ hasScheme ((⟨"https://x.org/dir/b.html", none⟩ : IndexArticle).url) = true := by
  refine ⟨rfl, ?_⟩
  exact ((index_references_absolute "https://x.org/dir/" ⟨some "a", none⟩ c9doc rfl).1
    ⟨"https://x.org/dir/b.html", none⟩ (by rw [(rfl :
      extract_index_articles_simple "https://x.org/dir/" ⟨some "a", none⟩ c9doc
        = [⟨"https://x.org/dir/b.html", none⟩])]; exact List.mem_singleton.mpr rfl)).1

/-- CSS matching depends only on the tag and the attributes of a node. -/
theorem nodeMatches_sig (s : Sel) (t : String) (a : List (String × String))
    (tx1 : String) (ch1 : HForest) (tl1 : String)
    (tx2 : String) (ch2 : HForest) (tl2 : String) :
    nodeMatches s (.elem t a tx1 ch1 tl1) = nodeMatches s (.elem t a tx2 ch2 tl2) := rfl

/-- Pruning descendants does not change how the node itself matches. -/
theorem nodeMatches_pruneDesc (s : Sel) (p : HNode → Bool) (n : HNode) :
    nodeMatches s (pruneDesc p n) = nodeMatches s n := by
  cases n with
  | elem t a tx ch tl => rfl

/-- Replacing the first match by a pruned version does not change how the
root matches. -/
theorem nodeMatches_replaceFirst (s : Sel) (q p : HNode → Bool) (n : HNode) :
    nodeMatches s ((replaceFirst q (pruneDesc p) n).1) = nodeMatches s n := by
  cases n with
  | elem t a tx ch tl =>
    cases hq : q (.elem t a tx ch tl) with
    | true =>
      have hr : (replaceFirst q (pruneDesc p) (.elem t a tx ch tl)).1
          = pruneDesc p (.elem t a tx ch tl) := by
        simp [replaceFirst, hq]
      rw [hr]
      exact nodeMatches_pruneDesc s p (.elem t a tx ch tl)
    | false =>
      have hr : (replaceFirst q (pruneDesc p) (.elem t a tx ch tl)).1
          = .elem t a tx (replaceFirstF q (pruneDesc p) ch).1 tl := by
        simp [replaceFirst, hq]
      rw [hr]
      exact nodeMatches_sig s t a tx (replaceFirstF q (pruneDesc p) ch).1 tl tx ch tl

/-- Deleting a strict descendant does not change how the root matches. -/
theorem nodeMatches_deleteFirstN (s : Sel) (q : HNode → Bool) (n : HNode) :
    nodeMatches s ((deleteFirstN q n).1) = nodeMatches s n := by
  cases n with
  | elem t a tx ch tl => rfl

/-- Once the content element is detached from the document, the removal
loop fails exactly when some later remove selector matches it (its
`getparent()` is `None`). -/
theorem applyRemovals_detached_error_eq (csel : Sel) :
    ∀ (rsels : List Sel) (doc ce : HNode),
      exceptIsError (applyRemovals csel rsels doc true ce)
        = rsels.any (fun sel => nodeMatches sel ce) := by
  intro rsels
  induction rsels with
  | nil => intro doc ce; simp [applyRemovals, exceptIsError]
  | cons sel rest ih =>
    intro doc ce
    cases hm : nodeMatches sel ce with
    | true =>
      have he : applyRemovals csel (sel :: rest) doc true ce
          = .error "Failed to extract article content: NoneType object has no attribute remove" := by
        simp [applyRemovals, hm]
      rw [he]
      simp [exceptIsError, List.any_cons, hm]
    | false =>
      have he : applyRemovals csel (sel :: rest) doc true ce
          = applyRemovals csel rest doc true (pruneDesc (nodeMatches sel) ce) := by
        simp [applyRemovals, hm]
      rw [he, ih]
      simp only [nodeMatches_pruneDesc]
      simp [List.any_cons, hm]

/-- The removal loop started on a live (non-detached) content element
fails exactly when the content element either is the document root hit by
some remove selector, or is hit by at least two remove selectors (the
first detaches it, the second finds a parentless element). -/
theorem applyRemovals_error_eq (csel : Sel) :
    ∀ (rsels : List Sel) (doc ce : HNode),
      exceptIsError (applyRemovals csel rsels doc false ce)
        = ((nodeMatches csel doc && rsels.any (fun sel => nodeMatches sel ce))
           || decide (2 ≤ rsels.countP (fun sel => nodeMatches sel ce))) := by
  intro rsels
  induction rsels with
  | nil => intro doc ce; simp [applyRemovals, exceptIsError]
  | cons sel rest ih =>
    intro doc ce
    cases hm : nodeMatches sel ce with
    | true =>
      cases hroot : nodeMatches csel doc with
      | true =>
        have he : applyRemovals csel (sel :: rest) doc false ce
            = .error "Failed to extract article content: NoneType object has no attribute remove" := by
          simp [applyRemovals, hm, hroot]
        rw [he]
        simp [exceptIsError, hroot, List.any_cons, hm]
      | false =>
        have he : applyRemovals csel (sel :: rest) doc false ce
            = applyRemovals csel rest (deleteFirstN (nodeMatches csel) doc).1 true
                (pruneDesc (nodeMatches sel) ce) := by
          simp [applyRemovals, hm, hroot]
        rw [he, applyRemovals_detached_error_eq]
        simp only [nodeMatches_pruneDesc]
        simp only [hroot, Bool.false_and, Bool.false_or, List.countP_cons, hm, if_true]
        cases hany : rest.any (fun sel => nodeMatches sel ce) with
        | true =>
          obtain ⟨x, hx, hpx⟩ := List.any_eq_true.mp hany
          have hpos : 0 < rest.countP (fun sel => nodeMatches sel ce) :=
            List.countP_pos_iff.mpr ⟨x, hx, hpx⟩
          have h2 : 2 ≤ rest.countP (fun sel => nodeMatches sel ce) + 1 := by omega
          simp [h2]
        | false =>
          have hz : rest.countP (fun sel => nodeMatches sel ce) = 0 :=
            List.countP_eq_zero.mpr (fun x hx =>
              by simpa using (List.any_eq_false.mp hany) x hx)
          simp [hz]
    | false =>
      have he : applyRemovals csel (sel :: rest) doc false ce
          = applyRemovals csel rest
              (replaceFirst (nodeMatches csel) (pruneDesc (nodeMatches sel)) doc).1 false
              (pruneDesc (nodeMatches sel) ce) := by
        simp [applyRemovals, hm]
      rw [he, ih]
      rw [nodeMatches_replaceFirst]
      simp only [nodeMatches_pruneDesc]
      simp [List.any_cons, List.countP_cons, hm]

/-- A root that matches heads its own `findAll` list (document order). -/
theorem findAll_root_match (p : HNode → Bool) (n : HNode) (hp : p n = true) :
    ∃ rest, findAll p n = n :: rest := by
  cases n with
  | elem t a tx ch tl => exact ⟨findAllF p ch, by simp [findAll, hp]⟩

/-- An if-then-else of two successful results is never an error. -/
theorem exceptIsError_ite_ok {ε α : Type} (c : Prop) [Decidable c] (x y : α) :
    exceptIsError (if c then (Except.ok x : Except ε α) else .ok y) = false := by
  by_cases h : c
  · simp [h, exceptIsError]
  · simp [h, exceptIsError]

/-- Simple-mode extraction errors when the content selector is absent. -/
theorem extract_simple_isError_none (base : String) (doc : HNode) (cfg : ArticleCfg)
    (hc : cfg.content = none) :
    exceptIsError (extract_article_content_simple base doc cfg) = true := by
  simp [extract_article_content_simple, hc, exceptIsError]

/-- Simple-mode extraction errors when the content selector matches no
element. -/
theorem extract_simple_isError_nomatch (base : String) (doc : HNode) (cfg : ArticleCfg)
    (csel : Sel) (hc : cfg.content = some csel)
    (hfa : findAll (nodeMatches csel) doc = []) :
    exceptIsError (extract_article_content_simple base doc cfg) = true := by
  simp [extract_article_content_simple, hc, hfa, exceptIsError]

/-- With a matching content selector, the error status of simple-mode
extraction is that of the removal loop: root-selected content hit by a
remove selector, or content hit by two or more remove selectors. -/
theorem extract_simple_isError_matched (base : String) (doc : HNode) (cfg : ArticleCfg)
    (csel : Sel) (ce : HNode) (rest : List HNode)
    (hc : cfg.content = some csel)
    (hfa : findAll (nodeMatches csel) doc = ce :: rest) :
    exceptIsError (extract_article_content_simple base doc cfg)
      = ((nodeMatches csel doc && cfg.remove.any (fun sel => nodeMatches sel ce))
         || decide (2 ≤ cfg.remove.countP (fun sel => nodeMatches sel ce))) := by
  have key := applyRemovals_error_eq csel cfg.remove doc ce
  cases happ : applyRemovals csel cfg.remove doc false ce with
  | error e =>
    rw [happ] at key
    have hext : extract_article_content_simple base doc cfg = .error e := by
      simp [extract_article_content_simple, hc, hfa, happ]
    rw [hext]
    exact key
  | ok out =>
    obtain ⟨doc2, det2, ce2⟩ := out
    rw [happ] at key
    have hfalse : exceptIsError (extract_article_content_simple base doc cfg) = false := by
      simp only [extract_article_content_simple, hc, hfa, happ]
      exact exceptIsError_ite_ok _ _ _
    rw [hfalse]
    exact key

/-- Counterexample for C7: a document whose root is the content element
(content selector `html` matches the root) and whose remove list also
matches it.  The content selector is present and matches, yet extraction
raises: the removal loop calls `getparent()` on the document root, which
is `None` in lxml. -/
theorem extract_simple_error_despite_content_match :
    (∃ rest, findAll (nodeMatches ⟨some "html", none⟩) c7doc = c7doc :: rest)
    ∧ extract_article_content_simple "" c7doc c7cfg
        = .error "Failed to extract article content: NoneType object has no attribute remove" :=
  ⟨⟨[], rfl⟩, rfl⟩

/-- Claim C7 (amended): in simple-selector mode, article extraction raises
a hard error exactly when the `content` selector is missing, or matches no
element, or the matched content element is the document root and some
remove selector also matches it, or at least two remove selectors match
the content element (the first detaches it from its parent, and in either
case the loop then calls `getparent()` on a parentless lxml element,
whose `None` result raises the `AttributeError` wrapped into the hard
extraction error).  By contrast the title/author/date selectors never
affect whether extraction raises — replacing all three arbitrarily leaves
the error status unchanged (each is resolved independently through the
fallback chain, a field left `none` when the chain is exhausted) — and a
fallback chain takes the first candidate that is non-empty after
stripping. -/
theorem extract_simple_error_conditions (base : String) (doc : HNode) (cfg : ArticleCfg) :
    (exceptIsError (extract_article_content_simple base doc cfg) = true ↔
      cfg.content = none
      ∨ ∃ csel, cfg.content = some csel
          ∧ (findAll (nodeMatches csel) doc = []
             ∨ ∃ ce rest, findAll (nodeMatches csel) doc = ce :: rest
                 ∧ ((nodeMatches csel doc = true
                     ∧ ∃ sel ∈ cfg.remove, nodeMatches sel ce = true)
                    ∨ 2 ≤ cfg.remove.countP (fun sel => nodeMatches sel ce))))
    ∧ (∀ t a d, exceptIsError (extract_article_content_simple base doc
          { cfg with title := t, author := a, date := d })
        = exceptIsError (extract_article_content_simple base doc cfg))
    ∧ chainFirst [some "   ", some " T ", some "U"] = some "T" := by
  refine ⟨?_, ?_, rfl⟩
  · cases hc : cfg.content with
    | none =>
      rw [extract_simple_isError_none base doc cfg hc]
      simp
    | some csel =>
      cases hfa : findAll (nodeMatches csel) doc with
      | nil =>
        rw [extract_simple_isError_nomatch base doc cfg csel hc hfa]
        constructor
        · intro _
          exact Or.inr ⟨csel, rfl, Or.inl hfa⟩
        · intro _; rfl
      | cons ce rest =>
        rw [extract_simple_isError_matched base doc cfg csel ce rest hc hfa]
        constructor
        · intro h
          simp only [Bool.or_eq_true, Bool.and_eq_true, decide_eq_true_eq] at h
          rcases h with ⟨hroot, hany⟩ | h2
          · rcases List.any_eq_true.mp hany with ⟨sel, hmem, hsel⟩
            exact Or.inr ⟨csel, rfl, Or.inr ⟨ce, rest, hfa,
              Or.inl ⟨hroot, sel, hmem, hsel⟩⟩⟩
          · exact Or.inr ⟨csel, rfl, Or.inr ⟨ce, rest, hfa, Or.inr h2⟩⟩
        · rintro (hnone | ⟨csel2, hcs, hdis⟩)
          · cases hnone
          · injection hcs with hcs2
            subst hcs2
            rcases hdis with hnil | ⟨ce2, rest2, heq, hcond⟩
            · rw [hfa] at hnil; cases hnil
            · have hce2 : ce2 = ce := by
                rw [hfa] at heq
                injection heq with h1 h2
                exact h1.symm
              subst hce2
              simp only [Bool.or_eq_true, Bool.and_eq_true, decide_eq_true_eq]
              rcases hcond with ⟨hroot, sel, hmem, hsel⟩ | hcount
              · exact Or.inl ⟨hroot, List.any_eq_true.mpr ⟨sel, hmem, hsel⟩⟩
              · exact Or.inr hcount
  · intro t a d
    cases hc : cfg.content with
    | none =>
      rw [extract_simple_isError_none base doc cfg hc,
        extract_simple_isError_none base doc ⟨none, t, a, d, cfg.remove⟩ rfl]
    | some csel =>
      cases hfa : findAll (nodeMatches csel) doc with
      | nil =>
        rw [extract_simple_isError_nomatch base doc cfg csel hc hfa,
          extract_simple_isError_nomatch base doc ⟨some csel, t, a, d, cfg.remove⟩ csel rfl hfa]
      | cons ce rest =>
        rw [extract_simple_isError_matched base doc cfg csel ce rest hc hfa,
          extract_simple_isError_matched base doc ⟨some csel, t, a, d, cfg.remove⟩
            csel ce rest rfl hfa]

/-- Claim C8: for the pattern/template URL transform, a match substitutes
every placeholder (the i-th placeholder receives the i-th capture group,
via the sequential replace loop), and in particular the pattern
`/(\d+)/([a-z-]+)/` with template `id=\x7b1\x7d&slug=\x7b2\x7d` applied to
`/2024/my-article/` yields `id=2024&slug=my-article`; when the pattern does
not match, the original URL is returned unchanged. -/
theorem transform_url_match_and_nomatch :
    (∀ p t url, re_search p url = none → transform_url p t url = url)
    ∧ (∀ p t url gs, re_search p url = some gs →
        transform_url p t url = substGroupsAux t 1 gs)
    ∧ transform_url
        [.lit '/', .grp [('0', '9')], .lit '/', .grp [('a', 'z'), ('-', '-')], .lit '/']
        "id=\x7b1\x7d&slug=\x7b2\x7d" "/2024/my-article/" = "id=2024&slug=my-article"
    ∧ transform_url
        [.lit '/', .grp [('0', '9')], .lit '/', .grp [('a', 'z'), ('-', '-')], .lit '/']
        "id=\x7b1\x7d&slug=\x7b2\x7d" "/no-match/" = "/no-match/" := by
  refine ⟨?_, ?_, ?_, ?_⟩
  · intro p t url hnone
    simp [transform_url, hnone]
  · intro p t url gs hsome
    simp [transform_url, hsome]
  · rfl
  · rfl

/-- Witness for C8 at a concrete input: the no-match branch of the theorem
applied to a URL the pattern cannot match. -/
theorem transform_url_match_and_nomatch_witness :
    transform_url [PatItem.lit 'a'] "t" "zzz" = "zzz" :=
  transform_url_match_and_nomatch.1 [PatItem.lit 'a'] "t" "zzz" rfl

/-- Witness for C10 at concrete inputs: a non-compiling regex rule is
skipped and the remaining literal rule still applies. -/
theorem apply_replacements_order_identity_skip_literal_witness :
    apply_replacements (fun _ _ _ => none) "ax"
        [⟨"[", "z", true⟩, ⟨"x", "y", false⟩]
      = apply_replacements (fun _ _ _ => none) "ax" [⟨"x", "y", false⟩] :=
  apply_replacements_order_identity_skip_literal.2.2.1
    (fun _ _ _ => none) "ax" ⟨"[", "z", true⟩ [⟨"x", "y", false⟩] rfl (fun _ _ => rfl)

end Gensi
